import Mathlib

/-!
Verification of the payment-alerts mail monitor (src/main.py) against its
natural-language specification.  The Python program is shallowly embedded:
pure string manipulation is translated to executable Lean functions on
List Char / String, the dispatcher retry loop becomes a recursion over a
list of pre-recorded HTTP responses, the dedup ledger becomes an
association list with explicit disk state, and one scan cycle over a
tenant's mailbox becomes a fold over already-fetched messages.
-/

namespace PaymentAlerts

/-! ## Python string primitives

Models of the CPython std-library string operations the program uses.
Python str.lower is modelled charwise, restricted to ASCII and Russian
Cyrillic letters (the only alphabets appearing in the program's data). -/

/-- Uppercase-to-lowercase pairs: ASCII A-Z and Cyrillic А-Я plus Ё. -/
def lowerPairs : List (Char × Char) :=
  [('A', 'a'), ('B', 'b'), ('C', 'c'), ('D', 'd'), ('E', 'e'), ('F', 'f'),
   ('G', 'g'), ('H', 'h'), ('I', 'i'), ('J', 'j'), ('K', 'k'), ('L', 'l'),
   ('M', 'm'), ('N', 'n'), ('O', 'o'), ('P', 'p'), ('Q', 'q'), ('R', 'r'),
   ('S', 's'), ('T', 't'), ('U', 'u'), ('V', 'v'), ('W', 'w'), ('X', 'x'),
   ('Y', 'y'), ('Z', 'z'),
   ('А', 'а'), ('Б', 'б'), ('В', 'в'), ('Г', 'г'), ('Д', 'д'), ('Е', 'е'),
   ('Ж', 'ж'), ('З', 'з'), ('И', 'и'), ('Й', 'й'), ('К', 'к'), ('Л', 'л'),
   ('М', 'м'), ('Н', 'н'), ('О', 'о'), ('П', 'п'), ('Р', 'р'), ('С', 'с'),
   ('Т', 'т'), ('У', 'у'), ('Ф', 'ф'), ('Х', 'х'), ('Ц', 'ц'), ('Ч', 'ч'),
   ('Ш', 'ш'), ('Щ', 'щ'), ('Ъ', 'ъ'), ('Ы', 'ы'), ('Ь', 'ь'), ('Э', 'э'),
   ('Ю', 'ю'), ('Я', 'я'), ('Ё', 'ё')]

def toLowerChar (c : Char) : Char :=
  match lowerPairs.find? (fun p => p.1 == c) with
  | some p => p.2
  | none => c

def pyLower (s : String) : String := ⟨s.data.map toLowerChar⟩

/-- The whitespace characters Python str.strip and str.split treat as
whitespace (ASCII subset; the program's data contains no exotic spaces). -/
def pyWsChars : List Char := [' ', '\t', '\n', '\r', '\x0b', '\x0c']

def isPyWs (c : Char) : Bool := pyWsChars.contains c

def pyStrip (s : String) : String :=
  ⟨((s.data.dropWhile isPyWs).reverse.dropWhile isPyWs).reverse⟩

def pyRstrip (s : String) : String :=
  ⟨(s.data.reverse.dropWhile isPyWs).reverse⟩

/-- Does the needle occur at the start of the haystack. -/
def startsWithL : List Char → List Char → Bool
  | [], _ => true
  | _ :: _, [] => false
  | a :: as, b :: bs => a == b && startsWithL as bs

/-- Substring containment on char lists: needle first, haystack second. -/
def containsSubL (needle : List Char) : List Char → Bool
  | [] => startsWithL needle []
  | c :: t => startsWithL needle (c :: t) || containsSubL needle t

/-- Python membership test: needle in hay (contiguous substring). -/
def pyContains (hay needle : String) : Bool := containsSubL needle.data hay.data

/-- Split a char list on a separator character; Python str.split(sep). -/
def splitOnCharL (sep : Char) : List Char → List (List Char)
  | [] => [[]]
  | c :: cs =>
    if c == sep then [] :: splitOnCharL sep cs
    else
      match splitOnCharL sep cs with
      | [] => [[c]]
      | w :: ws => (c :: w) :: ws

/-! ## Tenant registry (build_company_configs, src/main.py lines 103-137) -/

/-- parse_plus_list: split a raw config field on plus signs, strip each
piece, drop empty pieces. -/
def parsePlusList (raw : String) : List String :=
  ((splitOnCharL '+' raw.data).map (fun w => pyStrip ⟨w⟩)).filter (· ≠ "")

/-- Order-preserving first-occurrence deduplication, the semantics of
Python list(dict.fromkeys(xs)). -/
def dedupFirstAux : List String → List String → List String
  | [], _ => []
  | x :: xs, seen =>
    if seen.contains x then dedupFirstAux xs seen
    else x :: dedupFirstAux xs (x :: seen)

def dedupFirst (l : List String) : List String := dedupFirstAux l []

/-- GLOBAL_ALERT_PHRASES from src/main.py lines 60-86. -/
def GLOBAL_ALERT_PHRASES : List String :=
  ["пора пополнить баланс",
   "доступ к сервисам ограничен",
   "истекает",
   "закончатся средства",
   "пополните баланс",
   "услуга приостановлена",
   "доступ заблокирован",
   "срок действия истекает",
   "оплатите",
   "задолженность",
   "не удалось списать",
   "требуется оплата",
   "payment due",
   "service suspended",
   "account suspended",
   "expires",
   "expiring soon",
   "low balance",
   "top up your balance",
   "billing issue",
   "invoice overdue",
   "subscription expired",
   "credit card was declined"]

/-- One tenant record as built by build_company_configs (email and
password omitted: they only feed the IMAP connection). -/
structure Company where
  name : String
  chatId : String
  topicId : Option Int
  tags : List String
  allowedSenders : List String
  keywords : List String
deriving DecidableEq, Repr

/-- src/main.py line 119: allowed senders are lowercased at construction. -/
def buildAllowedSenders (raw : String) : List String :=
  (parsePlusList raw).map pyLower

/-- src/main.py lines 120 and 131: extra keywords are lowercased and the
keyword corpus is the global phrases followed by the extras, deduplicated
preserving first occurrence. -/
def buildKeywords (rawExtra : String) : List String :=
  dedupFirst (GLOBAL_ALERT_PHRASES ++ (parsePlusList rawExtra).map pyLower)

/-! ## Match engine (src/main.py lines 318-328) -/

/-- find_matches: haystack is subject, a newline, then the body, all
lowercased; each keyword (lowercased) that occurs as a substring is kept,
then first-seen deduplication is applied. -/
def findMatches (c : Company) (subject bodyText : String) : List String :=
  let haystack := pyLower (subject ++ "\n" ++ bodyText)
  dedupFirst (c.keywords.filter (fun phrase => pyContains haystack (pyLower phrase)))

/-- sender_allowed: an empty allowlist allows everyone; otherwise the
sender address must contain some allowlisted entry as a substring. -/
def senderAllowed (c : Company) (senderEmail : String) : Bool :=
  match c.allowedSenders with
  | [] => true
  | l => l.any (fun s => pyContains senderEmail s)

/-- extract_sender_email, applied to the address part parseaddr returned:
lowercase then strip. -/
def extractSenderEmail (addr : String) : String := pyStrip (pyLower addr)

/-! ## Alert dispatcher (send_telegram_alert, src/main.py lines 173-218)

The HTTP layer is replaced by a list of pre-recorded responses, one per
POST attempt.  A response is either 2xx success, a 429 rate limit carrying
an optional Retry-After value, or a transport failure (covers both a
requests exception and the non-2xx raise_for_status path). -/

inductive TgResponse where
  | ok : TgResponse
  | rateLimited : Option Nat → TgResponse
  | fail : TgResponse
deriving DecidableEq, Repr

/-- Observable outcome of one send_telegram_alert call: the returned
boolean, how many POST attempts were made, and the sleeps performed in
order (seconds). -/
structure SendResult where
  sent : Bool
  posts : Nat
  sleeps : List Nat
deriving DecidableEq, Repr

/-- The for-loop of send_telegram_alert.  fuel counts the remaining loop
iterations (retries - attempt + 1); attempt is the 1-based loop index used
for the exponential backoff 2 ^ attempt.  A 429 sleeps the Retry-After
value (default 5) and continues to the next iteration; a failure sleeps
2 ^ attempt only when another attempt remains. -/
def sendLoop (retries : Nat) : Nat → Nat → List TgResponse → SendResult
  | 0, _, _ => ⟨false, 0, []⟩
  | _ + 1, _, [] => ⟨false, 0, []⟩
  | fuel + 1, attempt, r :: rest =>
    match r with
    | .ok => ⟨true, 1, []⟩
    | .rateLimited ra =>
      let res := sendLoop retries fuel (attempt + 1) rest
      ⟨res.sent, res.posts + 1, ra.getD 5 :: res.sleeps⟩
    | .fail =>
      let res := sendLoop retries fuel (attempt + 1) rest
      if attempt < retries then ⟨res.sent, res.posts + 1, 2 ^ attempt :: res.sleeps⟩
      else ⟨res.sent, res.posts + 1, res.sleeps⟩

/-- send_telegram_alert's delivery loop with attempt budget retries
(default 3), run against the recorded responses. -/
def sendTelegramRetry (retries : Nat) (resps : List TgResponse) : SendResult :=
  sendLoop retries retries 1 resps

/-- The notification text built by send_telegram_alert lines 174-188. -/
def buildMessageText (c : Company) (fromAddr subject excerpt : String)
    (phrases : List String) : String :=
  let tagLine := pyStrip (String.intercalate " " c.tags)
  let matchLine := String.intercalate ", " (phrases.take 6)
  let messageText :=
    "🚨 Billing Alert\n" ++
    "━━━━━━━━━━━━━━━━━━━━\n" ++
    "🏢 Company: " ++ c.name ++ "\n" ++
    "📧 Sender: " ++ fromAddr ++ "\n" ++
    "📌 Subject: " ++ (if subject = "" then "(no subject)" else subject) ++ "\n" ++
    "🔎 Matched: " ++ matchLine ++ "\n" ++
    "━━━━━━━━━━━━━━━━━━━━\n" ++
    "📝 Email text:\n" ++ excerpt ++ "\n"
  if tagLine = "" then messageText
  else messageText ++ "━━━━━━━━━━━━━━━━━━━━\n" ++ tagLine

/-! ## Dedup ledger (src/main.py lines 141-169)

The persisted JSON object becomes an association list from message
identifier to ISO-timestamp string; Python dict-update semantics are
modelled explicitly.  Timestamps are compared as strings, exactly as the
source does with the expression v > cutoff: Python compares strings
lexicographically by code point, with a proper prefix smaller. -/

def charLt (a b : Char) : Bool := decide (a.val.toNat < b.val.toNat)

def ltCharList : List Char → List Char → Bool
  | _, [] => false
  | [], _ :: _ => true
  | a :: as, b :: bs =>
    if charLt a b then true else if charLt b a then false else ltCharList as bs

/-- Python string less-than: lexicographic by code point. -/
def pyStrLt (a b : String) : Bool := ltCharList a.data b.data

abbrev Ledger : Type := List (String × String)

def ledgerHas (L : Ledger) (k : String) : Bool :=
  L.any (fun kv => kv.1 == k)

/-- Python dict assignment d[k] = v: overwrite in place when the key
exists, append otherwise. -/
def ledgerInsert (L : Ledger) (k v : String) : Ledger :=
  if ledgerHas L k then
    L.map (fun kv => if kv.1 == k then (k, v) else kv)
  else L ++ [(k, v)]

/-- load_processed_ids, with the filesystem made explicit: the input is
the parsed on-disk map (none when the file does not exist), and the output
pairs the returned map with the on-disk state after the call.  Entries are
kept only when their timestamp is strictly greater than the cutoff string
(now minus the retention window); if anything was dropped the pruned map
is saved back before returning. -/
def loadProcessedIds (disk : Option Ledger) (cutoff : String) :
    Ledger × Option Ledger :=
  match disk with
  | none => ([], none)
  | some data =>
    let pruned : Ledger := data.filter (fun kv => pyStrLt cutoff kv.2)
    if pruned.length < data.length then (pruned, some pruned)
    else (pruned, some data)

/-- mark_processed: record the current timestamp under the identifier
(the map is also saved to disk, with identical contents). -/
def markProcessed (processed : Ledger) (msgId now : String) : Ledger :=
  ledgerInsert processed msgId now

/-! ## Poll orchestrator, per-message step (check_mail, src/main.py
lines 361-390)

A fetched message is taken after header decoding: msgId is the derived
stable identifier, addr the address part of the From header, fromAddr the
decoded From display, subject the decoded subject and body the extracted
email text.  sendOk stands for the boolean send_telegram_alert returned;
check_mail discards it. -/

structure Msg where
  msgId : String
  addr : String
  fromAddr : String
  subject : String
  body : String
deriving DecidableEq, Repr

/-- What one iteration of the per-message loop did: the ledger afterwards,
whether find_matches ran, and whether send_telegram_alert was called. -/
structure StepOut where
  processed : Ledger
  matchInvoked : Bool
  dispatched : Bool

/-- One iteration of the message loop in check_mail: skip when the
identifier is already in the ledger; otherwise gate on the sender
allowlist (marking non-allowed messages processed); otherwise run the
match engine, dispatch when it matched anything, and mark processed
regardless of the dispatch outcome. -/
def processMessage (c : Company) (processed : Ledger) (m : Msg) (now : String)
    (_sendOk : Bool) : StepOut :=
  if ledgerHas processed m.msgId then ⟨processed, false, false⟩
  else
    let senderEmail := extractSenderEmail m.addr
    if !senderAllowed c senderEmail then
      ⟨markProcessed processed m.msgId now, false, false⟩
    else
      let ms := findMatches c m.subject m.body
      ⟨markProcessed processed m.msgId now, true, !ms.isEmpty⟩

/-- Observable outcome of one tenant's message loop: final ledger, the
identifiers for which the match engine ran, and the identifiers for which
the dispatcher was called. -/
structure CycleOut where
  processed : Ledger
  matchedIds : List String
  dispatchedIds : List String

/-- The message loop of check_mail for one tenant, over the fetched
messages in mail-server order. -/
def cycleFold (c : Company) (L : Ledger) (now : String) : List Msg → CycleOut
  | [] => ⟨L, [], []⟩
  | m :: ms =>
    let st := processMessage c L m now true
    let rest := cycleFold c st.processed now ms
    ⟨rest.processed,
     (if st.matchInvoked then [m.msgId] else []) ++ rest.matchedIds,
     (if st.dispatched then [m.msgId] else []) ++ rest.dispatchedIds⟩

/-- check_mail restricted to one tenant: load the ledger from disk
(pruning by the retention cutoff) and run the message loop. -/
def runCheckMail (c : Company) (disk : Option Ledger) (cutoff now : String)
    (msgs : List Msg) : CycleOut :=
  cycleFold c (loadProcessedIds disk cutoff).1 now msgs

/-! ## Message normalizer (html_to_text and extract_email_text,
src/main.py lines 274-315)

The re module is modelled by direct scanners.  Note the source writes the
style and script patterns inside raw strings with doubled backslashes, so
the bracketed class matches only the three characters backslash, s and S,
not arbitrary content. -/

/-- Case-insensitive prefix test (pattern letters given in lowercase, as
re.IGNORECASE matching behaves for ASCII). -/
def ciStartsL : List Char → List Char → Bool
  | [], _ => true
  | _ :: _, [] => false
  | a :: as, b :: bs => a == toLowerChar b && ciStartsL as bs

/-- The character class written [\\s\\S] in a Python raw string: the
backslash, lowercase s and uppercase S. -/
def inBackslashClass (c : Char) : Bool := c == '\\' || c == 's' || c == 'S'

/-- Lazy completion search for the style/script patterns: the least k such
that the first k characters are in the class and the closing tag follows;
none when no completion exists. -/
def findCloseAfterRun (close : List Char) : List Char → Option Nat
  | [] => if ciStartsL close [] then some 0 else none
  | c :: cs =>
    if ciStartsL close (c :: cs) then some 0
    else if inBackslashClass c then (findCloseAfterRun close cs).map (· + 1)
    else none

/-- One re.sub pass replacing every occurrence of opening tag, lazy class
run, closing tag with a single space; fuel bounds the scan. -/
def subLazyBlockAux (opn close : List Char) : Nat → List Char → List Char
  | 0, l => l
  | _ + 1, [] => []
  | fuel + 1, c :: cs =>
    if ciStartsL opn (c :: cs) then
      match findCloseAfterRun close ((c :: cs).drop opn.length) with
      | some k =>
        ' ' :: subLazyBlockAux opn close fuel
          (((c :: cs).drop opn.length).drop (k + close.length))
      | none => c :: subLazyBlockAux opn close fuel cs
    else c :: subLazyBlockAux opn close fuel cs

def subLazyBlock (opn close : List Char) (l : List Char) : List Char :=
  subLazyBlockAux opn close l.length l

/-- Index of the first greater-than sign. -/
def findGt : List Char → Option Nat
  | [] => none
  | c :: cs => if c == '>' then some 0 else (findGt cs).map (· + 1)

/-- One re.sub pass for the tag pattern: a less-than sign, one or more
characters none of which is a greater-than sign, then a greater-than sign,
replaced by a single space. -/
def stripTagsAux : Nat → List Char → List Char
  | 0, l => l
  | _ + 1, [] => []
  | fuel + 1, c :: cs =>
    if c == '<' then
      match findGt cs with
      | some j =>
        if 1 ≤ j then ' ' :: stripTagsAux fuel (cs.drop (j + 1))
        else c :: stripTagsAux fuel cs
      | none => c :: stripTagsAux fuel cs
    else c :: stripTagsAux fuel cs

def stripTags (l : List Char) : List Char := stripTagsAux l.length l

/-- Modelled from CPython html.unescape restricted to the
semicolon-terminated named references amp, lt, gt, quot, apos and nbsp;
identity on every other character sequence, in particular on text with no
ampersand. -/
def htmlUnescapeAux : Nat → List Char → List Char
  | 0, l => l
  | _ + 1, [] => []
  | fuel + 1, c :: cs =>
    if c == '&' then
      if startsWithL "amp;".data cs then '&' :: htmlUnescapeAux fuel (cs.drop 4)
      else if startsWithL "lt;".data cs then '<' :: htmlUnescapeAux fuel (cs.drop 3)
      else if startsWithL "gt;".data cs then '>' :: htmlUnescapeAux fuel (cs.drop 3)
      else if startsWithL "quot;".data cs then '"' :: htmlUnescapeAux fuel (cs.drop 5)
      else if startsWithL "apos;".data cs then '\'' :: htmlUnescapeAux fuel (cs.drop 5)
      else if startsWithL "nbsp;".data cs then ' ' :: htmlUnescapeAux fuel (cs.drop 5)
      else c :: htmlUnescapeAux fuel cs
    else c :: htmlUnescapeAux fuel cs

def htmlUnescape (l : List Char) : List Char := htmlUnescapeAux l.length l

/-- Python str.split with no argument: maximal runs of non-whitespace. -/
def pySplitWs : List Char → List (List Char)
  | [] => []
  | c :: cs =>
    if isPyWs c then pySplitWs cs
    else
      match pySplitWs cs with
      | [] => [[c]]
      | w :: ws =>
        match cs with
        | [] => [[c]]
        | d :: _ => if isPyWs d then [c] :: w :: ws else (c :: w) :: ws

/-- html_to_text: drop the (mis-escaped) style and script blocks, strip
tags, unescape entities, collapse all whitespace to single spaces. -/
def htmlToText (rawHtml : String) : String :=
  let t1 := subLazyBlock "<style".data "</style>".data rawHtml.data
  let t2 := subLazyBlock "<script".data "</script>".data t1
  let t3 := stripTags t2
  let t4 := htmlUnescape t3
  ⟨List.intercalate [' '] (pySplitWs t4)⟩

/-- One MIME part as seen while walking a multipart message: its declared
content type, the Content-Disposition header text, and the decoded payload
(none when get_payload(decode=True) returned None, as for container
parts). -/
structure Part where
  contentType : String
  disposition : String
  payload : Option String
deriving DecidableEq, Repr

/-- A raw message: either multipart (the walked list of parts) or a single
body with its content type and optional decoded payload. -/
inductive EmailMsg where
  | multipart : List Part → EmailMsg
  | single : String → Option String → EmailMsg
deriving DecidableEq, Repr

/-- The chunk-collection loop of extract_email_text for a multipart
message: attachments and payload-less parts are skipped; every text/plain
payload is appended; a text/html payload is converted and kept only when
no chunk has been collected yet. -/
def extractChunksAux : List String → List Part → List String
  | acc, [] => acc
  | acc, p :: ps =>
    if pyContains (pyLower p.disposition) "attachment" then extractChunksAux acc ps
    else
      match p.payload with
      | none => extractChunksAux acc ps
      | some decoded =>
        if p.contentType == "text/plain" then extractChunksAux (acc ++ [decoded]) ps
        else if p.contentType == "text/html" && acc.isEmpty then
          extractChunksAux [htmlToText decoded] ps
        else extractChunksAux acc ps

def extractChunks (parts : List Part) : List String := extractChunksAux [] parts

/-- Runs of three or more newlines collapse to exactly two; k counts the
pending newlines. -/
def collapseNlEmit (k : Nat) : List Char :=
  if 3 ≤ k then ['\n', '\n'] else List.replicate k '\n'

def collapseNlAux : Nat → List Char → List Char
  | k, [] => collapseNlEmit k
  | k, c :: cs =>
    if c == '\n' then collapseNlAux (k + 1) cs
    else collapseNlEmit k ++ c :: collapseNlAux 0 cs

/-- The re.sub collapsing runs of three or more newlines to a blank line. -/
def collapseNl (l : List Char) : List Char := collapseNlAux 0 l

/-- src/main.py lines 313-314: texts longer than the budget are cut to the
budget, right-stripped, and get a three-character ellipsis marker. -/
def truncateBody (maxChars : Nat) (s : String) : String :=
  if maxChars < s.length then pyRstrip ⟨s.data.take maxChars⟩ ++ "..." else s

/-- Lines 311-315 of extract_email_text: strip each chunk, drop empty
ones, join with newlines, collapse blank-line runs, truncate to the
budget, and substitute the placeholder for an empty result. -/
def finalizeText (chunks : List String) (maxChars : Nat) : String :=
  let normalized :=
    String.intercalate "\n" ((chunks.map pyStrip).filter (· ≠ ""))
  let normalized := truncateBody maxChars ⟨collapseNl normalized.data⟩
  if normalized = "" then "(empty text body)" else normalized

/-- extract_email_text: collect chunks from the multipart walk or the
single body (an empty payload is falsy in the single-part branch), then
normalize.  maxChars is the configured MAX_BODY_CHARS. -/
def extractEmailText (m : EmailMsg) (maxChars : Nat) : String :=
  let chunks :=
    match m with
    | .multipart parts => extractChunks parts
    | .single ct payload =>
      match payload with
      | none => []
      | some p =>
        if p = "" then []
        else if ct == "text/html" then [htmlToText p] else [p]
  finalizeText chunks maxChars

/-! ## Characterization helpers for the multipart walk (used to state what
extract_email_text actually collects). -/

/-- A part that contributes: not marked attachment and with a payload. -/
def partEligible (p : Part) : Bool :=
  !(pyContains (pyLower p.disposition) "attachment") && p.payload.isSome

/-- The payloads of all eligible text/plain parts, in walk order. -/
def plainPayloads : List Part → List String
  | [] => []
  | p :: ps =>
    if partEligible p && p.contentType == "text/plain" then
      p.payload.toList ++ plainPayloads ps
    else plainPayloads ps

/-- The payload of the first eligible text/html part, provided it occurs
before every eligible text/plain part; none otherwise. -/
def leadHtml : List Part → Option String
  | [] => none
  | p :: ps =>
    if partEligible p then
      if p.contentType == "text/plain" then none
      else if p.contentType == "text/html" then p.payload
      else leadHtml ps
    else leadHtml ps

/-! ## Concrete records used by counterexamples and witnesses -/

/-- A tenant with empty allowlist and the default keyword corpus. -/
def sampleCompany : Company :=
  { name := "Acme", chatId := "-100200", topicId := none, tags := [],
    allowedSenders := [], keywords := buildKeywords "" }

/-- A message matching the global phrase payment due. -/
def sampleMsg : Msg :=
  { msgId := "X", addr := "billing@host.com",
    fromAddr := "Billing <billing@host.com>", subject := "Payment due",
    body := "please settle" }

/-- A tenant whose allowlist admits only the billing host. -/
def gatedCompany : Company :=
  { name := "Gated", chatId := "-100300", topicId := none, tags := [],
    allowedSenders := buildAllowedSenders "Billing@Host.com",
    keywords := buildKeywords "" }

/-- A message from an address outside the gated allowlist. -/
def strangerMsg : Msg :=
  { msgId := "S1", addr := "stranger@evil.com",
    fromAddr := "Stranger <stranger@evil.com>", subject := "Payment due",
    body := "pay" }

/-- An on-disk ledger whose only entry is far older than any retention
cutoff in use. -/
def staleDisk : Ledger := [("X", "2020-01-01T00:00:00")]

/-- An on-disk ledger whose only entry is within the retention window
relative to the cutoff 2025-09-28. -/
def freshDisk : Ledger := [("Y", "2025-10-01T00:00:00")]

/-- The fresh-disk message with the identifier already recorded. -/
def freshMsg : Msg :=
  { msgId := "Y", addr := "billing@host.com",
    fromAddr := "Billing <billing@host.com>", subject := "Payment due",
    body := "please settle" }

/-- A 55-character body (budget 5 plus 50) whose 5-character prefix ends
in a space. -/
def c4Body : String := "abcd " ++ String.mk (List.replicate 50 'x')

/-- A tenant with the extra configured keyword ab. -/
def c7Company : Company :=
  { name := "Plus", chatId := "-100400", topicId := none, tags := [],
    allowedSenders := [], keywords := buildKeywords "AB" }

/-- A multipart message whose text/html part precedes its text/plain
part. -/
def c5Parts : List Part :=
  [{ contentType := "text/html", disposition := "", payload := some "hello" },
   { contentType := "text/plain", disposition := "", payload := some "world" }]

/-- The gated tenant with the allowlist configured in a different letter
case. -/
def gatedCompanyLower : Company :=
  { name := "Gated", chatId := "-100300", topicId := none, tags := [],
    allowedSenders := buildAllowedSenders "billing@host.COM",
    keywords := buildKeywords "" }

/-! # Theorems -/

/-! ## General lemmas about the embedded operations -/

theorem sendLoop_posts_le (retries : Nat) :
    ∀ (fuel attempt : Nat) (resps : List TgResponse),
    (sendLoop retries fuel attempt resps).posts ≤ fuel := by
  intro fuel
  induction fuel with
  | zero => intro attempt resps; simp [sendLoop]
  | succ n ih =>
    intro attempt resps
    cases resps with
    | nil => simp [sendLoop]
    | cons r rest =>
      cases r with
      | ok => simp [sendLoop]
      | rateLimited ra =>
        simpa [sendLoop] using Nat.succ_le_succ (ih (attempt + 1) rest)
      | fail =>
        by_cases h : attempt < retries <;>
          simpa [sendLoop, h] using Nat.succ_le_succ (ih (attempt + 1) rest)

theorem sendLoop_sent_false_of_all_fail (retries : Nat) :
    ∀ (fuel attempt : Nat) (resps : List TgResponse),
    (∀ x ∈ resps, x = TgResponse.fail) →
    (sendLoop retries fuel attempt resps).sent = false := by
  intro fuel
  induction fuel with
  | zero => intro attempt resps _; simp [sendLoop]
  | succ n ih =>
    intro attempt resps hall
    cases resps with
    | nil => simp [sendLoop]
    | cons r rest =>
      have hr : r = TgResponse.fail := hall r (List.mem_cons_self r rest)
      have htail : ∀ x ∈ rest, x = TgResponse.fail :=
        fun x hx => hall x (List.mem_cons_of_mem r hx)
      subst hr
      by_cases h : attempt < retries <;>
        simpa [sendLoop, h] using ih (attempt + 1) rest htail

theorem ledgerHas_insert_self (L : Ledger) (k v : String) :
    ledgerHas (ledgerInsert L k v) k = true := by
  unfold ledgerInsert
  by_cases h : ledgerHas L k
  · rw [if_pos h]
    unfold ledgerHas at h ⊢
    rcases List.any_eq_true.mp h with ⟨kv, hmem, hk⟩
    refine List.any_eq_true.mpr ⟨(k, v), ?_, by simp⟩
    exact List.mem_map.mpr ⟨kv, hmem, by simp [hk]⟩
  · rw [if_neg h]
    unfold ledgerHas
    simp [List.any_append]

theorem ledgerHas_insert_of_has (L : Ledger) (k v i : String)
    (h : ledgerHas L i = true) : ledgerHas (ledgerInsert L k v) i = true := by
  unfold ledgerInsert
  by_cases hk : ledgerHas L k
  · rw [if_pos hk]
    unfold ledgerHas at h ⊢
    rcases List.any_eq_true.mp h with ⟨kv, hmem, hi⟩
    by_cases he : kv.1 == k
    · refine List.any_eq_true.mpr ⟨(k, v), ?_, ?_⟩
      · exact List.mem_map.mpr ⟨kv, hmem, by simp [he]⟩
      · have h1 : kv.1 = i := by simpa using hi
        have h2 : kv.1 = k := by simpa using he
        simp [← h1, h2]
    · refine List.any_eq_true.mpr ⟨kv, ?_, hi⟩
      exact List.mem_map.mpr ⟨kv, hmem, by simp [he]⟩
  · rw [if_neg hk]
    unfold ledgerHas at h ⊢
    simp [List.any_append, h]

theorem processMessage_processed_cases (c : Company) (L : Ledger) (m : Msg)
    (now : String) (ok : Bool) :
    (processMessage c L m now ok).processed = L ∨
    (processMessage c L m now ok).processed = markProcessed L m.msgId now := by
  unfold processMessage
  by_cases h : ledgerHas L m.msgId
  · rw [if_pos h]; exact Or.inl rfl
  · rw [if_neg h]
    by_cases hs : senderAllowed c (extractSenderEmail m.addr)
    · simp [hs]
    · simp [hs]

theorem processMessage_not_dispatched_of_has (c : Company) (L : Ledger) (m : Msg)
    (now : String) (ok : Bool) (h : ledgerHas L m.msgId = true) :
    (processMessage c L m now ok).dispatched = false := by
  unfold processMessage
  rw [if_pos h]

theorem cycleFold_no_dispatch_of_has (c : Company) (now i : String) :
    ∀ (msgs : List Msg) (L : Ledger), ledgerHas L i = true →
    i ∉ (cycleFold c L now msgs).dispatchedIds := by
  intro msgs
  induction msgs with
  | nil => intro L _; simp [cycleFold]
  | cons m ms ih =>
    intro L h
    by_cases hdup : ledgerHas L m.msgId
    · have hstep : processMessage c L m now true = ⟨L, false, false⟩ := by
        unfold processMessage; rw [if_pos hdup]
      simp only [cycleFold, hstep]
      simpa using ih L h
    · have hne : m.msgId ≠ i := by
        intro he; rw [he] at hdup; exact hdup h
      have hhas : ledgerHas (processMessage c L m now true).processed i = true := by
        rcases processMessage_processed_cases c L m now true with hc | hc
        · rw [hc]; exact h
        · rw [hc]; exact ledgerHas_insert_of_has L m.msgId now i h
      simp only [cycleFold, List.mem_append]
      rintro (hin | hin)
      · by_cases hd : (processMessage c L m now true).dispatched <;>
          simp [hd] at hin
        exact hne (hin ▸ rfl)
      · exact ih _ hhas hin

theorem charLt_asymm (x y : Char) (h : charLt x y = true) :
    charLt y x = false := by
  unfold charLt at h ⊢
  simp only [decide_eq_true_eq] at h
  simp only [decide_eq_false_iff_not]
  omega

theorem ltCharList_asymm : ∀ (a b : List Char),
    ltCharList a b = true → ltCharList b a = false := by
  intro a
  induction a with
  | nil =>
    intro b h
    cases b with
    | nil => simp [ltCharList] at h
    | cons y ys => simp [ltCharList]
  | cons x xs ih =>
    intro b h
    cases b with
    | nil => simp [ltCharList] at h
    | cons y ys =>
      unfold ltCharList at h ⊢
      by_cases h1 : charLt x y = true
      · rw [if_neg (by simp [charLt_asymm x y h1]), if_pos h1]
      · by_cases h2 : charLt y x = true
        · rw [if_neg h1, if_pos h2] at h
          exact absurd h (by simp)
        · rw [if_neg h1, if_neg h2] at h
          rw [if_neg h2, if_neg h1]
          exact ih ys h

theorem pyStrLt_asymm (a b : String) (h : pyStrLt a b = true) :
    pyStrLt b a = false :=
  ltCharList_asymm a.data b.data h

theorem eq_of_mem_nodup_keys : ∀ (data : Ledger),
    (data.map Prod.fst).Nodup →
    ∀ (k v w : String), (k, v) ∈ data → (k, w) ∈ data → v = w := by
  intro data
  induction data with
  | nil => intro _ k v w h; exact absurd h (by simp)
  | cons a rest ih =>
    intro hnd k v w h1 h2
    simp only [List.map_cons, List.nodup_cons] at hnd
    rcases List.mem_cons.mp h1 with e1 | m1
    · rcases List.mem_cons.mp h2 with e2 | m2
      · rw [← e1] at e2; exact (congrArg Prod.snd e2).symm
      · exfalso
        apply hnd.1
        rw [← e1]
        exact List.mem_map.mpr ⟨(k, w), m2, rfl⟩
    · rcases List.mem_cons.mp h2 with e2 | m2
      · exfalso
        apply hnd.1
        rw [← e2]
        exact List.mem_map.mpr ⟨(k, v), m1, rfl⟩
      · exact ih hnd.2 k v w m1 m2

theorem length_filter_lt_of_mem {α : Type} (p : α → Bool) :
    ∀ (l : List α) (x : α), x ∈ l → p x = false →
    (l.filter p).length < l.length := by
  intro l
  induction l with
  | nil => intro x h; intro; exact absurd h (by simp)
  | cons a t ih =>
    intro x hx hp
    rcases List.mem_cons.mp hx with rfl | hm
    · rw [List.filter_cons, if_neg (by simp [hp])]
      exact Nat.lt_succ_of_le (List.length_filter_le p t)
    · cases ha : p a
      · rw [List.filter_cons, if_neg (by simp [ha])]
        exact Nat.lt_succ_of_le (List.length_filter_le p t)
      · rw [List.filter_cons, if_pos (by simp [ha])]
        simpa using Nat.succ_lt_succ (ih x hm hp)

theorem loadProcessedIds_fst (data : Ledger) (cutoff : String) :
    (loadProcessedIds (some data) cutoff).1 =
    data.filter (fun kv => pyStrLt cutoff kv.2) := by
  unfold loadProcessedIds
  by_cases h : (data.filter (fun kv => pyStrLt cutoff kv.2)).length <
      data.length <;> simp [h]

/-! ## Claim C9 -/

/-- C9: the alert text depends only on the first six matched phrases —
building the notification for the full match list and for its first six
elements yields the identical string, so every phrase beyond the sixth is
omitted from the dispatched alert. -/
theorem alert_text_uses_first_six_matches (c : Company)
    (fromAddr subject excerpt : String) (phrases : List String) :
    buildMessageText c fromAddr subject excerpt phrases =
    buildMessageText c fromAddr subject excerpt (phrases.take 6) := by
  simp [buildMessageText, List.take_take]

/-! ## Claim C3 -/

/-- C3 counterexample: with an attempt budget of 1, a 429 with Retry-After
2 sleeps 2 seconds but is never re-attempted (1 POST in total, returning
false even though the next response would have succeeded); with the
default budget of 3, three 429 responses exhaust the budget after 3 POSTs.
So the 429 re-attempt IS counted against the attempt budget, contrary to
the claim. -/
theorem rate_limit_retry_consumes_budget :
    (sendTelegramRetry 1 [.rateLimited (some 2), .ok]).sent = false ∧
    (sendTelegramRetry 1 [.rateLimited (some 2), .ok]).posts = 1 ∧
    (sendTelegramRetry 1 [.rateLimited (some 2), .ok]).sleeps = [2] ∧
    (sendTelegramRetry 3
      [.rateLimited (some 2), .rateLimited (some 2), .rateLimited (some 2),
       .ok]).sent = false ∧
    (sendTelegramRetry 3
      [.rateLimited (some 2), .rateLimited (some 2), .rateLimited (some 2),
       .ok]).posts = 3 := by
  decide

/-- C3 amended: on a 429 the dispatcher sleeps exactly the Retry-After
value before the next attempt (no exponential backoff on this path), but
that next attempt does count against the attempt budget: the total number
of POST attempts never exceeds the budget, whatever the responses. -/
theorem rate_limit_sleeps_but_counts (r n : Nat) (rest resps : List TgResponse)
    (h : 1 ≤ r) :
    (sendTelegramRetry r (.rateLimited (some n) :: rest)).sleeps.head? = some n ∧
    (sendTelegramRetry r resps).posts ≤ r := by
  refine ⟨?_, sendLoop_posts_le r r 1 resps⟩
  cases r with
  | zero => exact absurd h (by decide)
  | succ r' => simp [sendTelegramRetry, sendLoop]

/-- C3 witness: the amended statement at budget 3 and Retry-After 2. -/
theorem rate_limit_sleeps_but_counts_witness :
    (sendTelegramRetry 3 [TgResponse.rateLimited (some 2)]).sleeps.head? = some 2 ∧
    (sendTelegramRetry 3 [TgResponse.fail, TgResponse.fail]).posts ≤ 3 :=
  rate_limit_sleeps_but_counts 3 2 [] [TgResponse.fail, TgResponse.fail]
    (by decide)

/-! ## Claim C8 -/

/-- C8: when every attempt fails, send_telegram_alert returns false after
exhausting its budget; the per-message step of check_mail ignores the
dispatcher's boolean entirely (identical outcome for a true and a false
result), and the message identifier is in the ledger after the step in
every case. -/
theorem failed_dispatch_still_marks (r : Nat) (resps : List TgResponse)
    (hfail : ∀ x ∈ resps, x = TgResponse.fail)
    (c : Company) (L : Ledger) (m : Msg) (now : String) (ok1 ok2 : Bool) :
    (sendTelegramRetry r resps).sent = false ∧
    processMessage c L m now ok1 = processMessage c L m now ok2 ∧
    ledgerHas (processMessage c L m now ok1).processed m.msgId = true := by
  refine ⟨sendLoop_sent_false_of_all_fail r r 1 resps hfail, rfl, ?_⟩
  unfold processMessage
  by_cases h : ledgerHas L m.msgId
  · rw [if_pos h]; exact h
  · rw [if_neg h]
    by_cases hs : senderAllowed c (extractSenderEmail m.addr)
    · simp only [hs, Bool.not_true, Bool.false_eq_true, if_false]
      exact ledgerHas_insert_self L m.msgId now
    · simp only [Bool.not_eq_true] at hs
      simp only [hs, Bool.not_false, if_true]
      exact ledgerHas_insert_self L m.msgId now

/-- C8 witness: three failing attempts at the default budget, and the
sample message is marked processed whichever boolean the dispatcher
returned. -/
theorem failed_dispatch_still_marks_witness :
    (sendTelegramRetry 3 [TgResponse.fail, TgResponse.fail, TgResponse.fail]).sent
      = false ∧
    processMessage sampleCompany [] sampleMsg "2025-10-12T00:00:00" true =
      processMessage sampleCompany [] sampleMsg "2025-10-12T00:00:00" false ∧
    ledgerHas (processMessage sampleCompany [] sampleMsg "2025-10-12T00:00:00"
      true).processed sampleMsg.msgId = true :=
  failed_dispatch_still_marks 3 [TgResponse.fail, TgResponse.fail, TgResponse.fail]
    (by decide) sampleCompany [] sampleMsg "2025-10-12T00:00:00" true false

/-! ## Claim C2 -/

/-- C2: when the tenant's allowlist is non-empty and the extracted sender
address contains none of its entries, the per-message step never invokes
the match engine and never dispatches, yet afterwards the message
identifier is in the ledger, so a repeat of the step skips the message
outright. -/
theorem nonallowed_sender_marked_without_match (c : Company) (L : Ledger)
    (m : Msg) (now : String) (ok : Bool)
    (hne : c.allowedSenders ≠ [])
    (hno : ∀ e ∈ c.allowedSenders,
      pyContains (extractSenderEmail m.addr) e = false) :
    (processMessage c L m now ok).matchInvoked = false ∧
    (processMessage c L m now ok).dispatched = false ∧
    ledgerHas (processMessage c L m now ok).processed m.msgId = true ∧
    (processMessage c (processMessage c L m now ok).processed m now
      ok).matchInvoked = false := by
  have hsa : senderAllowed c (extractSenderEmail m.addr) = false := by
    unfold senderAllowed
    cases hA : c.allowedSenders with
    | nil => exact absurd hA hne
    | cons a as =>
      rw [hA] at hno
      refine List.any_eq_false.mpr ?_
      intro x hx
      simp [hno x hx]
  by_cases hdup : ledgerHas L m.msgId
  · have hstep : processMessage c L m now ok = ⟨L, false, false⟩ := by
      unfold processMessage; rw [if_pos hdup]
    rw [hstep]
    refine ⟨rfl, rfl, hdup, ?_⟩
    show (processMessage c L m now ok).matchInvoked = false
    rw [hstep]
  · have hstep : processMessage c L m now ok =
        ⟨markProcessed L m.msgId now, false, false⟩ := by
      unfold processMessage
      rw [if_neg hdup]
      simp [hsa]
    rw [hstep]
    refine ⟨rfl, rfl, ledgerHas_insert_self L m.msgId now, ?_⟩
    show (processMessage c (markProcessed L m.msgId now) m now
      ok).matchInvoked = false
    have hh : ledgerHas (markProcessed L m.msgId now) m.msgId = true :=
      ledgerHas_insert_self L m.msgId now
    unfold processMessage
    rw [if_pos hh]

/-- C2 witness: an allowlisted tenant receives a message from an address
containing no allowlisted entry. -/
theorem nonallowed_sender_marked_without_match_witness :
    (processMessage gatedCompany [] strangerMsg "2025-10-12T00:00:00"
      true).matchInvoked = false ∧
    (processMessage gatedCompany [] strangerMsg "2025-10-12T00:00:00"
      true).dispatched = false ∧
    ledgerHas (processMessage gatedCompany [] strangerMsg "2025-10-12T00:00:00"
      true).processed strangerMsg.msgId = true ∧
    (processMessage gatedCompany
      (processMessage gatedCompany [] strangerMsg "2025-10-12T00:00:00"
        true).processed strangerMsg "2025-10-12T00:00:00" true).matchInvoked
      = false :=
  nonallowed_sender_marked_without_match gatedCompany [] strangerMsg
    "2025-10-12T00:00:00" true (by decide) (by decide)

/-! ## Claim C1 -/

/-- C1 counterexample: the identifier X is present in the persisted dedup
ledger, yet a scan cycle whose retention cutoff postdates its timestamp
prunes the entry on load and dispatches an alert for the same message
again — the once-in-the-ledger-never-again invariant fails across the
retention window. -/
theorem stale_ledger_entry_redispatched :
    ("X", "2020-01-01T00:00:00") ∈ staleDisk ∧
    (runCheckMail sampleCompany (some staleDisk) "2025-09-28T00:00:00"
      "2025-10-12T00:00:00" [sampleMsg]).dispatchedIds = ["X"] := by
  decide

/-- C1 amended: for every message whose identifier is present in the
persisted ledger with a timestamp still inside the retention window
(strictly above the cutoff, so the entry survives the prune on load), a
scan cycle produces zero dispatcher calls for that message. -/
theorem retained_entry_not_redispatched (c : Company) (data : Ledger)
    (cutoff now ts : String) (msgs : List Msg) (m : Msg)
    (hmem : (m.msgId, ts) ∈ data) (hts : pyStrLt cutoff ts = true) :
    m.msgId ∉ (runCheckMail c (some data) cutoff now msgs).dispatchedIds := by
  have hload : (loadProcessedIds (some data) cutoff).1 =
      data.filter (fun kv => pyStrLt cutoff kv.2) := by
    unfold loadProcessedIds
    by_cases h : (data.filter (fun kv => pyStrLt cutoff kv.2)).length <
        data.length <;> simp [h]
  have hpr : (m.msgId, ts) ∈ data.filter (fun kv => pyStrLt cutoff kv.2) :=
    List.mem_filter.mpr ⟨hmem, hts⟩
  have hhas : ledgerHas (loadProcessedIds (some data) cutoff).1 m.msgId
      = true := by
    rw [hload]
    exact List.any_eq_true.mpr ⟨(m.msgId, ts), hpr, by simp⟩
  exact cycleFold_no_dispatch_of_has c now m.msgId msgs _ hhas

/-- C1 witness: a retained entry with a timestamp above the cutoff is not
re-dispatched. -/
theorem retained_entry_not_redispatched_witness :
    "Y" ∉ (runCheckMail sampleCompany (some freshDisk) "2025-09-28T00:00:00"
      "2025-10-12T00:00:00" [freshMsg]).dispatchedIds :=
  retained_entry_not_redispatched sampleCompany freshDisk "2025-09-28T00:00:00"
    "2025-10-12T00:00:00" "2025-10-01T00:00:00" [freshMsg] freshMsg
    (by decide) (by decide)

/-! ## Claim C6 -/

/-- C6: load drops every ledger entry whose timestamp predates the cutoff
(now minus retention_days): the returned map does not contain its key, and
since at least that entry was dropped the pruned map is persisted before
returning, so the on-disk map after the call does not contain the key
either.  Keys are assumed distinct, as in any parsed JSON object. -/
theorem load_prunes_and_persists (data : Ledger) (cutoff k v : String)
    (hnd : (data.map Prod.fst).Nodup) (hmem : (k, v) ∈ data)
    (hold : pyStrLt v cutoff = true) :
    k ∉ ((loadProcessedIds (some data) cutoff).1.map Prod.fst) ∧
    ∃ d, (loadProcessedIds (some data) cutoff).2 = some d ∧
      k ∉ (d.map Prod.fst) := by
  have hpv : pyStrLt cutoff v = false := pyStrLt_asymm v cutoff hold
  have hkey : k ∉
      ((data.filter (fun kv => pyStrLt cutoff kv.2)).map Prod.fst) := by
    intro hk
    rcases List.mem_map.mp hk with ⟨kv, hkv, hfst⟩
    rcases List.mem_filter.mp hkv with ⟨hkvmem, hkvp⟩
    have hmem2 : (k, kv.2) ∈ data := by
      rw [← hfst]
      simpa using hkvmem
    have heq : kv.2 = v := eq_of_mem_nodup_keys data hnd k kv.2 v hmem2 hmem
    rw [heq] at hkvp
    rw [hkvp] at hpv
    exact absurd hpv (by simp)
  have hlt : (data.filter (fun kv => pyStrLt cutoff kv.2)).length <
      data.length :=
    length_filter_lt_of_mem _ data (k, v) hmem hpv
  refine ⟨?_, data.filter (fun kv => pyStrLt cutoff kv.2), ?_, hkey⟩
  · rw [loadProcessedIds_fst]
    exact hkey
  · simp only [loadProcessedIds]
    rw [if_pos hlt]

/-- C6 witness: the stale entry X, fourteen-plus days old, is removed both
from the returned map and from the newly persisted file. -/
theorem load_prunes_and_persists_witness :
    "X" ∉ ((loadProcessedIds (some staleDisk)
      "2025-09-28T00:00:00").1.map Prod.fst) ∧
    ∃ d, (loadProcessedIds (some staleDisk) "2025-09-28T00:00:00").2 = some d ∧
      "X" ∉ (d.map Prod.fst) :=
  load_prunes_and_persists staleDisk "2025-09-28T00:00:00" "X"
    "2020-01-01T00:00:00" (by decide) (by decide) (by decide)

/-! ## Claim C4 -/

theorem pyRstrip_eq_self_of_last (l : List Char) (c : Char)
    (hl : l.getLast? = some c) (hw : isPyWs c = false) :
    pyRstrip ⟨l⟩ = String.mk l := by
  unfold pyRstrip
  cases hr : l.reverse with
  | nil =>
    have : l = [] := by
      have := congrArg List.reverse hr
      simpa using this
    subst this
    exact absurd hl (by simp)
  | cons a t =>
    have hl2 : l = (a :: t).reverse := by rw [← hr, List.reverse_reverse]
    have ha : a = c := by
      rw [hl2, List.reverse_cons] at hl
      rw [List.getLast?_concat] at hl
      exact Option.some.inj hl
    rw [List.dropWhile_cons, if_neg (by simp [ha, hw])]
    rw [← hl2]

/-- C4 counterexample: with budget 5, the 55-character body abcd followed
by a space and fifty x characters is truncated to abcd plus the marker —
seven characters, not the claimed first five characters plus the marker
(eight characters): the rstrip in the source drops the trailing space of
the prefix first. -/
theorem truncation_drops_trailing_space :
    c4Body.length = 5 + 50 ∧
    truncateBody 5 c4Body = "abcd..." ∧
    truncateBody 5 c4Body ≠ String.mk (c4Body.data.take 5) ++ "..." ∧
    (truncateBody 5 c4Body).length ≠ 5 + 3 := by
  decide

/-- C4 amended: for a body longer than the budget whose budget-length
prefix does not end in whitespace, the output is exactly that prefix
followed by the three-character marker, with total length budget plus 3
(in general the source right-strips the prefix before appending the
marker). -/
theorem truncate_to_budget_keeps_prefix (maxChars : Nat) (s : String)
    (c : Char) (hlen : maxChars < s.length)
    (hlast : (s.data.take maxChars).getLast? = some c)
    (hw : isPyWs c = false) :
    truncateBody maxChars s = String.mk (s.data.take maxChars) ++ "..." ∧
    (truncateBody maxChars s).length = maxChars + 3 := by
  have h1 : truncateBody maxChars s =
      pyRstrip ⟨s.data.take maxChars⟩ ++ "..." := by
    unfold truncateBody
    rw [if_pos hlen]
  rw [pyRstrip_eq_self_of_last _ c hlast hw] at h1
  refine ⟨h1, ?_⟩
  rw [h1]
  have hmin : maxChars ≤ s.data.length := Nat.le_of_lt hlen
  show (s.data.take maxChars ++ "...".data).length = maxChars + 3
  rw [List.length_append, List.length_take, Nat.min_eq_left hmin]
  norm_num

/-- C4 witness: budget 5 on an 8-character body with a non-blank
boundary. -/
theorem truncate_to_budget_keeps_prefix_witness :
    truncateBody 5 "abcdefgh" = String.mk ("abcdefgh".data.take 5) ++ "..." ∧
    (truncateBody 5 "abcdefgh").length = 5 + 3 :=
  truncate_to_budget_keeps_prefix 5 "abcdefgh" 'e' (by decide) (by decide)
    (by decide)

/-! ## Claim C7 -/

theorem dedupFirstAux_mem : ∀ (l seen : List String) (x : String),
    x ∈ dedupFirstAux l seen ↔ (x ∈ l ∧ x ∉ seen) := by
  intro l
  induction l with
  | nil => intro seen x; simp [dedupFirstAux]
  | cons a t ih =>
    intro seen x
    unfold dedupFirstAux
    by_cases h : seen.contains a
    · have ha : a ∈ seen := by simpa using h
      rw [if_pos h, ih]
      constructor
      · rintro ⟨hx, hns⟩
        exact ⟨List.mem_cons_of_mem a hx, hns⟩
      · rintro ⟨hx, hns⟩
        rcases List.mem_cons.mp hx with rfl | hx2
        · exact absurd ha hns
        · exact ⟨hx2, hns⟩
    · have ha : a ∉ seen := by simpa using h
      rw [if_neg h]
      constructor
      · intro hx
        rcases List.mem_cons.mp hx with rfl | hx2
        · exact ⟨List.mem_cons_self x t, ha⟩
        · rcases (ih (a :: seen) x).mp hx2 with ⟨h1, h2⟩
          exact ⟨List.mem_cons_of_mem a h1,
            fun hc => h2 (List.mem_cons_of_mem a hc)⟩
      · rintro ⟨hx, hns⟩
        rcases List.mem_cons.mp hx with rfl | hx2
        · exact List.mem_cons_self x (dedupFirstAux t (x :: seen))
        · by_cases hxa : x = a
          · subst hxa
            exact List.mem_cons_self x (dedupFirstAux t (x :: seen))
          · refine List.mem_cons_of_mem a ((ih (a :: seen) x).mpr ⟨hx2, ?_⟩)
            intro hc
            rcases List.mem_cons.mp hc with h3 | h3
            · exact hxa h3
            · exact hns h3

theorem dedupFirst_mem (l : List String) (x : String) :
    x ∈ dedupFirst l ↔ x ∈ l := by
  unfold dedupFirst
  rw [dedupFirstAux_mem]
  simp

theorem dedupFirst_nodup (l : List String) : (dedupFirst l).Nodup := by
  suffices h : ∀ (l seen : List String), (dedupFirstAux l seen).Nodup from h l []
  intro l
  induction l with
  | nil => intro seen; simp [dedupFirstAux]
  | cons a t ih =>
    intro seen
    unfold dedupFirstAux
    by_cases h : seen.contains a
    · rw [if_pos h]; exact ih seen
    · rw [if_neg h]
      refine List.nodup_cons.mpr ⟨?_, ih (a :: seen)⟩
      intro hmem
      rcases (dedupFirstAux_mem t (a :: seen) a).mp hmem with ⟨_, hns⟩
      exact hns (List.mem_cons_self a seen)

theorem dedupFirst_sublist (l : List String) : (dedupFirst l).Sublist l := by
  suffices h : ∀ (l seen : List String), (dedupFirstAux l seen).Sublist l from
    h l []
  intro l
  induction l with
  | nil => intro seen; simp [dedupFirstAux]
  | cons a t ih =>
    intro seen
    unfold dedupFirstAux
    by_cases h : seen.contains a
    · rw [if_pos h]; exact (ih seen).cons a
    · rw [if_neg h]; exact (ih (a :: seen)).cons₂ a

/-- C7 counterexample: the configured keyword ab occurs in the plain
concatenation of subject a and body b, yet find_matches returns nothing,
because the source joins subject and body with a newline before
matching. -/
theorem concat_boundary_phrase_missed :
    "ab" ∈ c7Company.keywords ∧
    pyContains (pyLower ("a" ++ "b")) (pyLower "ab") = true ∧
    findMatches c7Company "a" "b" = [] := by
  decide

/-- C7 amended: find_matches returns exactly the tenant keywords that
occur case-insensitively in subject, newline, body (not the plain
concatenation), as a duplicate-free list in first-seen keyword order
(a sublist of the corpus). -/
theorem find_matches_characterization (c : Company) (subject bodyText : String) :
    (∀ p, p ∈ findMatches c subject bodyText ↔
      (p ∈ c.keywords ∧
        pyContains (pyLower (subject ++ "\n" ++ bodyText)) (pyLower p)
          = true)) ∧
    (findMatches c subject bodyText).Nodup ∧
    (findMatches c subject bodyText).Sublist c.keywords := by
  refine ⟨?_, dedupFirst_nodup _,
    (dedupFirst_sublist _).trans (List.filter_sublist _)⟩
  intro p
  show p ∈ dedupFirst (c.keywords.filter
    (fun phrase => pyContains (pyLower (subject ++ "\n" ++ bodyText))
      (pyLower phrase))) ↔ _
  rw [dedupFirst_mem, List.mem_filter]

/-! ## Claim C5 -/

theorem extractChunksAux_nonempty_acc : ∀ (ps : List Part) (acc : List String),
    acc ≠ [] → extractChunksAux acc ps = acc ++ plainPayloads ps := by
  intro ps
  induction ps with
  | nil => intro acc _; simp [extractChunksAux, plainPayloads]
  | cons p ps ih =>
    intro acc h
    simp only [extractChunksAux, plainPayloads]
    by_cases hatt : pyContains (pyLower p.disposition) "attachment" = true
    · simp only [hatt, if_true]
      have he : (partEligible p && (p.contentType == "text/plain")) = false := by
        simp [partEligible, hatt]
      rw [if_neg (by simp [he])]
      exact ih acc h
    · rw [if_neg hatt]
      cases hp : p.payload with
      | none =>
        have he : (partEligible p && (p.contentType == "text/plain")) = false := by
          simp [partEligible, hp]
        rw [if_neg (by simp [he])]
        exact ih acc h
      | some d =>
        dsimp only
        by_cases hct : (p.contentType == "text/plain") = true
        · rw [if_pos hct]
          have he : (partEligible p && (p.contentType == "text/plain")) = true := by
            simp [partEligible, hatt, hp, hct]
          rw [if_pos (by simp [he])]
          rw [ih (acc ++ [d]) (by simp)]
          simp [hp, List.append_assoc]
        · rw [if_neg hct]
          have hemp : acc.isEmpty = false := by
            cases acc with
            | nil => exact absurd rfl h
            | cons x xs => rfl
          rw [if_neg (by simp [hemp])]
          have he : (partEligible p && (p.contentType == "text/plain")) = false := by
            simp [hct]
          rw [if_neg (by simp [he])]
          exact ih acc h

/-- C5 counterexample: in a multipart message with a text/html part
followed by a text/plain part, the extracted body contains BOTH parts,
not just the text/plain one — the source appends every text/plain payload
and also keeps an html part whenever it arrives before any chunk exists,
so the fallback is not conditional on no text/plain part existing. -/
theorem html_before_plain_both_included :
    extractEmailText (EmailMsg.multipart c5Parts) 700 = "hello\nworld" ∧
    extractEmailText (EmailMsg.multipart c5Parts) 700 ≠ "world" := by
  decide

/-- C5 amended: walking a multipart message collects, in order, the
converted text of the first eligible text/html part when it precedes every
eligible text/plain part (and every other contributing part), followed by
the payloads of ALL eligible text/plain parts; attachment-marked and
payload-less parts are skipped.  The extracted text is that chunk list
normalized (strip, join, blank-line collapse, truncation, placeholder). -/
theorem extract_email_text_collects (parts : List Part) (maxChars : Nat) :
    extractChunks parts =
      ((leadHtml parts).map htmlToText).toList ++ plainPayloads parts ∧
    extractEmailText (EmailMsg.multipart parts) maxChars =
      finalizeText (((leadHtml parts).map htmlToText).toList ++
        plainPayloads parts) maxChars := by
  have hmain : ∀ (qs : List Part), extractChunks qs =
      ((leadHtml qs).map htmlToText).toList ++ plainPayloads qs := by
    intro qs
    induction qs with
    | nil => simp [extractChunks, extractChunksAux, leadHtml, plainPayloads]
    | cons p ps ih =>
      show extractChunksAux [] (p :: ps) = _
      simp only [extractChunksAux, leadHtml, plainPayloads]
      by_cases hatt : pyContains (pyLower p.disposition) "attachment" = true
      · have he : partEligible p = false := by simp [partEligible, hatt]
        simp only [hatt, if_true, he, Bool.false_and, Bool.false_eq_true,
          if_false]
        exact ih
      · rw [if_neg hatt]
        cases hp : p.payload with
        | none =>
          have he : partEligible p = false := by simp [partEligible, hp]
          simp only [he, Bool.false_and, Bool.false_eq_true, if_false]
          exact ih
        | some d =>
          dsimp only
          have hel : partEligible p = true := by simp [partEligible, hatt, hp]
          by_cases hct : (p.contentType == "text/plain") = true
          · rw [if_pos hct]
            simp only [List.nil_append]
            rw [extractChunksAux_nonempty_acc ps [d] (by simp)]
            simp [hel, hct, hp]
          · rw [if_neg hct]
            by_cases hht : (p.contentType == "text/html") = true
            · rw [if_pos (by simp [hht])]
              rw [extractChunksAux_nonempty_acc ps [htmlToText d] (by simp)]
              simp [hel, hct, hht, hp]
            · rw [if_neg (by simp [hht])]
              simp only [hel, hct, hht, Bool.true_and, Bool.false_eq_true,
                if_false, if_true]
              exact ih
  refine ⟨hmain parts, ?_⟩
  show finalizeText (extractChunks parts) maxChars = _
  rw [hmain parts]

/-! ## Claim C10 -/

theorem toLowerChar_id_or_mem (c : Char) :
    toLowerChar c = c ∨ (c, toLowerChar c) ∈ lowerPairs := by
  cases hf : lowerPairs.find? (fun p => p.1 == c) with
  | none =>
    left
    unfold toLowerChar
    rw [hf]
  | some p =>
    right
    have hp : p ∈ lowerPairs := List.mem_of_find?_eq_some hf
    have he := List.find?_some hf
    have hc : p.1 = c := by simpa using he
    have hval : toLowerChar c = p.2 := by
      unfold toLowerChar
      rw [hf]
    rw [hval, ← hc, Prod.mk.eta]
    exact hp

theorem toLowerChar_beq_plus (c : Char) :
    (toLowerChar c == '+') = (c == '+') := by
  have hpairs : ∀ p ∈ lowerPairs, p.1 ≠ '+' ∧ p.2 ≠ '+' := by decide
  rcases toLowerChar_id_or_mem c with h | h
  · rw [h]
  · rcases hpairs _ h with ⟨h1, h2⟩
    have e1 : (toLowerChar c == '+') = false := by simpa using h2
    have e2 : (c == '+') = false := by simpa using h1
    rw [e1, e2]

theorem isPyWs_toLowerChar (c : Char) :
    isPyWs (toLowerChar c) = isPyWs c := by
  have hpairs : ∀ p ∈ lowerPairs, isPyWs p.1 = false ∧ isPyWs p.2 = false := by
    decide
  rcases toLowerChar_id_or_mem c with h | h
  · rw [h]
  · rcases hpairs _ h with ⟨h1, h2⟩
    rw [h1, h2]

theorem dropWhile_isPyWs_map (l : List Char) :
    (l.map toLowerChar).dropWhile isPyWs =
    (l.dropWhile isPyWs).map toLowerChar := by
  induction l with
  | nil => simp
  | cons c cs ih =>
    simp only [List.map_cons, List.dropWhile_cons, isPyWs_toLowerChar]
    by_cases h : isPyWs c = true
    · simp [h, ih]
    · simp [h]

theorem pyStrip_pyLower (s : String) :
    pyStrip (pyLower s) = pyLower (pyStrip s) := by
  simp only [pyStrip, pyLower]
  congr 1
  rw [dropWhile_isPyWs_map, ← List.map_reverse, dropWhile_isPyWs_map,
    ← List.map_reverse]

theorem splitOnCharL_ne_nil (sep : Char) (l : List Char) :
    splitOnCharL sep l ≠ [] := by
  cases l with
  | nil => simp [splitOnCharL]
  | cons c cs =>
    unfold splitOnCharL
    by_cases h : (c == sep) = true
    · simp [h]
    · rw [if_neg h]
      cases hsp : splitOnCharL sep cs <;> simp

theorem splitOnCharL_map_lower (l : List Char) :
    splitOnCharL '+' (l.map toLowerChar) =
    (splitOnCharL '+' l).map (List.map toLowerChar) := by
  induction l with
  | nil => simp [splitOnCharL]
  | cons c cs ih =>
    simp only [List.map_cons]
    unfold splitOnCharL
    rw [toLowerChar_beq_plus c]
    by_cases h : (c == '+') = true
    · simp [h, ih]
    · rw [if_neg h, if_neg h, ih]
      cases hsp : splitOnCharL '+' cs with
      | nil => exact absurd hsp (splitOnCharL_ne_nil '+' cs)
      | cons w ws => simp

theorem pyLower_eq_empty_iff (a : String) : (pyLower a = "") ↔ (a = "") := by
  cases a with
  | mk d =>
    cases d with
    | nil => simp [pyLower]
    | cons x xs =>
      constructor
      · intro h
        exact absurd (congrArg String.data h) (by simp [pyLower])
      · intro h
        exact absurd (congrArg String.data h) (by simp)

theorem filter_ne_empty_map_pyLower (l : List String) :
    (l.map pyLower).filter (· ≠ "") = (l.filter (· ≠ "")).map pyLower := by
  induction l with
  | nil => simp
  | cons a t ih =>
    by_cases h : a = ""
    · subst h
      have h0 : pyLower "" = "" := rfl
      simp only [List.map_cons, List.filter_cons, h0]
      simp only [ne_eq, not_true_eq_false]
      simpa using ih
    · have h2 : pyLower a ≠ "" := fun hc => h ((pyLower_eq_empty_iff a).mp hc)
      simp only [List.map_cons, List.filter_cons]
      simp only [ne_eq, h, h2, not_false_eq_true]
      simp only [decide_true_eq_true, if_true]
      simpa using ih

theorem parsePlusList_lower (raw : String) :
    parsePlusList (pyLower raw) = (parsePlusList raw).map pyLower := by
  unfold parsePlusList
  rw [show (pyLower raw).data = raw.data.map toLowerChar from rfl]
  rw [splitOnCharL_map_lower, List.map_map]
  have hfun : ((fun w => pyStrip ⟨w⟩) ∘ List.map toLowerChar) =
      (pyLower ∘ fun w : List Char => pyStrip ⟨w⟩) :=
    funext fun w => pyStrip_pyLower ⟨w⟩
  rw [hfun, ← List.map_map, filter_ne_empty_map_pyLower]

theorem buildAllowedSenders_lower_invariant (raw1 raw2 : String)
    (h : pyLower raw1 = pyLower raw2) :
    buildAllowedSenders raw1 = buildAllowedSenders raw2 := by
  have e1 : buildAllowedSenders raw1 = parsePlusList (pyLower raw1) :=
    (parsePlusList_lower raw1).symm
  have e2 : buildAllowedSenders raw2 = parsePlusList (pyLower raw2) :=
    (parsePlusList_lower raw2).symm
  rw [e1, e2, h]

/-- C10: allowlist gating is case-insensitive — because the configured
entries are lowercased once at tenant construction and the sender address
is lowercased in extract_sender_email, changing the letter case of the raw
allowlist configuration or of the sender address never changes the gating
decision. -/
theorem allowlist_gating_case_insensitive (c1 c2 : Company)
    (raw1 raw2 addr1 addr2 : String)
    (h1 : c1.allowedSenders = buildAllowedSenders raw1)
    (h2 : c2.allowedSenders = buildAllowedSenders raw2)
    (hraw : pyLower raw1 = pyLower raw2)
    (haddr : pyLower addr1 = pyLower addr2) :
    senderAllowed c1 (extractSenderEmail addr1) =
    senderAllowed c2 (extractSenderEmail addr2) := by
  have hA : c1.allowedSenders = c2.allowedSenders := by
    rw [h1, h2]
    exact buildAllowedSenders_lower_invariant raw1 raw2 hraw
  have hS : extractSenderEmail addr1 = extractSenderEmail addr2 := by
    unfold extractSenderEmail
    rw [haddr]
  unfold senderAllowed
  rw [hA, hS]

/-- C10 witness: the same allowlist and sender in two letter cases give
the same gating decision. -/
theorem allowlist_gating_case_insensitive_witness :
    senderAllowed gatedCompany (extractSenderEmail "User@Evil.com") =
    senderAllowed gatedCompanyLower (extractSenderEmail "user@evil.COM") :=
  allowlist_gating_case_insensitive gatedCompany gatedCompanyLower
    "Billing@Host.com" "billing@host.COM" "User@Evil.com" "user@evil.COM"
    rfl rfl (by decide) (by decide)

end PaymentAlerts
